import Mathlib

/-!
Shallow embedding of the `dig` crate (`src/lib.rs`): a logistic environment
of containers and grabbers.  The `f64` amounts and times of the source are
modelled exactly by rationals, matching the spec's description of volumes
and durations as real numbers under plain addition and subtraction.
Out-of-range index accesses, which panic in the source, are modelled by
`Option.none`; every operation that indexes returns an `Option`.
-/

namespace Dig

/-- `Container` in `src/lib.rs`: stores a volume of some material. -/
structure Container where
  amount : ℚ
deriving DecidableEq

/-- `Container::put`: adds some volume to the container. -/
def Container.put (c : Container) (v : ℚ) : Container :=
  ⟨c.amount + v⟩

/-- `Container::take`: takes some volume from the container.  Returns the
updated container together with the volume actually taken. -/
def Container.take (c : Container) (v : ℚ) : Container × ℚ :=
  if c.amount ≤ v then (⟨0⟩, c.amount) else (⟨c.amount - v⟩, v)

/-- `Grabber`: configuration of a grabber.  `volume` is its capacity,
`time` the transfer duration, `source` and `target` are container indices
(the payloads of `ContainerId`). -/
structure Grabber where
  volume : ℚ
  time : ℚ
  source : ℕ
  target : ℕ
deriving DecidableEq

/-- `GrabberState`: remaining transfer time and the volume in transit. -/
structure GrabberState where
  time : ℚ
  volume : ℚ
deriving DecidableEq

/-- `Environment`: the containers, the grabbers, and the grabber states. -/
structure Environment where
  containers : List Container
  grabbers : List Grabber
  grabberStates : List GrabberState
deriving DecidableEq

/-- The two values of `Result<(), ()>` returned by `Environment::grab`. -/
inductive GrabOutcome where
  | ok : GrabOutcome
  | busy : GrabOutcome
deriving DecidableEq

/-- `Environment::new`: the empty environment. -/
def Environment.new : Environment :=
  ⟨[], [], []⟩

/-- `Environment::add_container`: appends a container, returns its id. -/
def Environment.add_container (e : Environment) (c : Container) :
    Environment × ℕ :=
  (⟨e.containers ++ [c], e.grabbers, e.grabberStates⟩, e.containers.length)

/-- `Environment::add_grabber`: appends a grabber together with an idle
state, returns the grabber id. -/
def Environment.add_grabber (e : Environment) (g : Grabber) :
    Environment × ℕ :=
  (⟨e.containers, e.grabbers ++ [g], e.grabberStates ++ [⟨0, 0⟩]⟩,
    e.grabbers.length)

/-- `Environment::grab`: activates grabber `gid` if it is idle
(`time == 0`), withdrawing up to its capacity from the source container;
reports `busy` (the `Err` case) otherwise.  `none` models an index panic. -/
def Environment.grab (e : Environment) (gid : ℕ) :
    Option (Environment × GrabOutcome) :=
  match e.grabberStates[gid]? with
  | none => none
  | some s =>
    if s.time = 0 then
      match e.grabbers[gid]? with
      | none => none
      | some g =>
        match e.containers[g.source]? with
        | none => none
        | some c =>
          some (⟨e.containers.set g.source (c.take g.volume).1,
                 e.grabbers,
                 e.grabberStates.set gid ⟨g.time, (c.take g.volume).2⟩⟩,
                GrabOutcome.ok)
    else
      some (e, GrabOutcome.busy)

/-- One iteration of the loop body of `Environment::update`, for grabber
index `i`: decrement the remaining time by `dt`; on reaching `≤ 0`,
deposit the in-transit volume into the target container and reset the
state to idle. -/
def Environment.updateStep (e : Environment) (dt : ℚ) (i : ℕ) :
    Option Environment :=
  match e.grabberStates[i]? with
  | none => none
  | some s =>
    if s.time - dt ≤ 0 then
      match e.grabbers[i]? with
      | none => none
      | some g =>
        match e.containers[g.target]? with
        | none => none
        | some c =>
          some ⟨e.containers.set g.target (c.put s.volume),
                e.grabbers,
                e.grabberStates.set i ⟨0, 0⟩⟩
    else
      some ⟨e.containers, e.grabbers,
            e.grabberStates.set i ⟨s.time - dt, s.volume⟩⟩

/-- Runs the loop body of `Environment::update` over an explicit list of
grabber indices, in order. -/
def Environment.updateOrder (e : Environment) (dt : ℚ) :
    List ℕ → Option Environment
  | [] => some e
  | i :: l =>
    match e.updateStep dt i with
    | none => none
    | some e₁ => e₁.updateOrder dt l

/-- `Environment::update`: the loop `for i in 0..n` over all grabbers. -/
def Environment.update (e : Environment) (dt : ℚ) : Option Environment :=
  e.updateOrder dt (List.range e.grabbers.length)

/-- A sequence of `update` calls with the given time deltas. -/
def Environment.updates (e : Environment) : List ℚ → Option Environment
  | [] => some e
  | d :: ds =>
    match e.update d with
    | none => none
    | some e₁ => e₁.updates ds

/-- `Environment::volume_of_container`. -/
def Environment.volume_of_container (e : Environment) (cid : ℕ) :
    Option ℚ :=
  (e.containers[cid]?).map Container.amount

/-- Environments reachable from `Environment::new` by the public
operations (creation, activation, time advance). -/
inductive Reach : Environment → Prop where
  | new : Reach Environment.new
  | add_container (c : Container) {e : Environment} :
      Reach e → Reach (e.add_container c).1
  | add_grabber (g : Grabber) {e : Environment} :
      Reach e → Reach (e.add_grabber g).1
  | grab {e e₁ : Environment} {gid : ℕ} {r : GrabOutcome} :
      Reach e → e.grab gid = some (e₁, r) → Reach e₁
  | update {e e₁ : Environment} {dt : ℚ} :
      Reach e → e.update dt = some e₁ → Reach e₁

/-- Reachable environments when every added grabber has a nonzero
duration (creation of grabbers with `time = 0` is excluded). -/
inductive ReachNZ : Environment → Prop where
  | new : ReachNZ Environment.new
  | add_container (c : Container) {e : Environment} :
      ReachNZ e → ReachNZ (e.add_container c).1
  | add_grabber (g : Grabber) {e : Environment} :
      g.time ≠ 0 → ReachNZ e → ReachNZ (e.add_grabber g).1
  | grab {e e₁ : Environment} {gid : ℕ} {r : GrabOutcome} :
      ReachNZ e → e.grab gid = some (e₁, r) → ReachNZ e₁
  | update {e e₁ : Environment} {dt : ℚ} :
      ReachNZ e → e.update dt = some e₁ → ReachNZ e₁

/-- Reachable environments when creation inputs are non-negative: added
containers hold a non-negative amount and added grabbers have a
non-negative capacity. -/
inductive ReachNN : Environment → Prop where
  | new : ReachNN Environment.new
  | add_container (c : Container) {e : Environment} :
      0 ≤ c.amount → ReachNN e → ReachNN (e.add_container c).1
  | add_grabber (g : Grabber) {e : Environment} :
      0 ≤ g.volume → ReachNN e → ReachNN (e.add_grabber g).1
  | grab {e e₁ : Environment} {gid : ℕ} {r : GrabOutcome} :
      ReachNN e → e.grab gid = some (e₁, r) → ReachNN e₁
  | update {e e₁ : Environment} {dt : ℚ} :
      ReachNN e → e.update dt = some e₁ → ReachNN e₁

/-- Every grabber state other than `gid` carries no in-transit volume. -/
def othersIdle (e : Environment) (gid : ℕ) : Prop :=
  ∀ j s, j ≠ gid → e.grabberStates[j]? = some s → s.volume = 0

/-- The effect of one `update` iteration on the grabber state it treats:
tick down by `dt`, resetting to idle when the time reaches `≤ 0`. -/
def stepState (dt : ℚ) (s : GrabberState) : GrabberState :=
  if s.time - dt ≤ 0 then ⟨0, 0⟩ else ⟨s.time - dt, s.volume⟩

/-- The environment of the repository test `test_environment` after setup:
containers holding 10 and 0, one grabber of capacity 2 and duration 1
from container 0 to container 1, idle. -/
def envA : Environment :=
  ⟨[⟨10⟩, ⟨0⟩], [⟨2, 1, 0, 1⟩], [⟨0, 0⟩]⟩

theorem Container.put_zero (c : Container) : c.put 0 = c := by
  cases c
  simp [Container.put]

theorem grab_ok_shape {e e₁ : Environment} {gid : ℕ}
    (h : e.grab gid = some (e₁, GrabOutcome.ok)) :
    ∃ s g c, e.grabberStates[gid]? = some s ∧ s.time = 0 ∧
      e.grabbers[gid]? = some g ∧ e.containers[g.source]? = some c ∧
      e₁ = ⟨e.containers.set g.source (c.take g.volume).1, e.grabbers,
            e.grabberStates.set gid ⟨g.time, (c.take g.volume).2⟩⟩ := by
  unfold Environment.grab at h
  split at h
  · exact absurd h (by simp)
  next s hs =>
    split at h
    next ht =>
      split at h
      · exact absurd h (by simp)
      next g hg =>
        split at h
        · exact absurd h (by simp)
        next c hc =>
          refine ⟨s, g, c, hs, ht, hg, hc, ?_⟩
          exact ((Prod.mk.injEq _ _ _ _).mp (Option.some.inj h)).1.symm
    next ht =>
      exact absurd ((Prod.mk.injEq _ _ _ _).mp (Option.some.inj h)).2
        (by simp)

theorem grab_busy_shape {e e₁ : Environment} {gid : ℕ}
    (h : e.grab gid = some (e₁, GrabOutcome.busy)) :
    e₁ = e ∧ ∃ s, e.grabberStates[gid]? = some s ∧ s.time ≠ 0 := by
  unfold Environment.grab at h
  split at h
  · exact absurd h (by simp)
  next s hs =>
    split at h
    next ht =>
      split at h
      · exact absurd h (by simp)
      next g hg =>
        split at h
        · exact absurd h (by simp)
        next c hc =>
          exact absurd ((Prod.mk.injEq _ _ _ _).mp (Option.some.inj h)).2
            (by simp)
    next ht =>
      refine ⟨(((Prod.mk.injEq _ _ _ _).mp (Option.some.inj h)).1).symm,
        s, hs, ht⟩

theorem step_shape {e e₁ : Environment} {dt : ℚ} {i : ℕ}
    (h : e.updateStep dt i = some e₁) :
    ∃ s, e.grabberStates[i]? = some s ∧
      ((∃ g c, s.time - dt ≤ 0 ∧ e.grabbers[i]? = some g ∧
          e.containers[g.target]? = some c ∧
          e₁ = ⟨e.containers.set g.target (c.put s.volume), e.grabbers,
                e.grabberStates.set i ⟨0, 0⟩⟩) ∨
       (¬ s.time - dt ≤ 0 ∧
          e₁ = ⟨e.containers, e.grabbers,
                e.grabberStates.set i ⟨s.time - dt, s.volume⟩⟩)) := by
  unfold Environment.updateStep at h
  split at h
  · exact absurd h (by simp)
  next s hs =>
    split at h
    next hcond =>
      split at h
      · exact absurd h (by simp)
      next g hg =>
        split at h
        · exact absurd h (by simp)
        next c hc =>
          exact ⟨s, hs, Or.inl ⟨g, c, hcond, hg, hc, (Option.some.inj h).symm⟩⟩
    next hcond =>
      exact ⟨s, hs, Or.inr ⟨hcond, (Option.some.inj h).symm⟩⟩

theorem step_grabbers {e e₁ : Environment} {dt : ℚ} {i : ℕ}
    (h : e.updateStep dt i = some e₁) : e₁.grabbers = e.grabbers := by
  obtain ⟨s, hs, ⟨g, c, hcond, hg, hc, rfl⟩ | ⟨hcond, rfl⟩⟩ := step_shape h <;> rfl

theorem step_containers_length {e e₁ : Environment} {dt : ℚ} {i : ℕ}
    (h : e.updateStep dt i = some e₁) :
    e₁.containers.length = e.containers.length := by
  obtain ⟨s, hs, ⟨g, c, hcond, hg, hc, rfl⟩ | ⟨hcond, rfl⟩⟩ := step_shape h <;> simp

theorem step_states_length {e e₁ : Environment} {dt : ℚ} {i : ℕ}
    (h : e.updateStep dt i = some e₁) :
    e₁.grabberStates.length = e.grabberStates.length := by
  obtain ⟨s, hs, ⟨g, c, hcond, hg, hc, rfl⟩ | ⟨hcond, rfl⟩⟩ := step_shape h <;> simp

theorem step_states_other {e e₁ : Environment} {dt : ℚ} {i j : ℕ}
    (hij : i ≠ j) (h : e.updateStep dt i = some e₁) :
    e₁.grabberStates[j]? = e.grabberStates[j]? := by
  obtain ⟨s, hs, ⟨g, c, hcond, hg, hc, rfl⟩ | ⟨hcond, rfl⟩⟩ := step_shape h <;>
    exact List.getElem?_set_ne hij

theorem step_states_self {e e₁ : Environment} {dt : ℚ} {i : ℕ} {s : GrabberState}
    (hs : e.grabberStates[i]? = some s) (h : e.updateStep dt i = some e₁) :
    e₁.grabberStates[i]? = some (stepState dt s) := by
  obtain ⟨s', hs', hrest⟩ := step_shape h
  rw [hs] at hs'
  obtain rfl : s = s' := Option.some.inj hs'
  have hlen : i < e.grabberStates.length := by
    exact (List.getElem?_eq_some_iff.mp hs).1
  obtain ⟨g, c, hcond, hg, hc, rfl⟩ | ⟨hcond, rfl⟩ := hrest <;>
    simp [stepState, hcond, hlen]

theorem step_containers_isSome {e e₁ : Environment} {dt : ℚ} {i : ℕ}
    (h : e.updateStep dt i = some e₁) (k : ℕ) :
    (e₁.containers[k]?).isSome = (e.containers[k]?).isSome := by
  obtain ⟨s, hs, ⟨g, c, hcond, hg, hc, rfl⟩ | ⟨hcond, rfl⟩⟩ := step_shape h
  · show ((e.containers.set g.target (c.put s.volume))[k]?).isSome = _
    rw [List.getElem?_set]
    by_cases hk : g.target = k
    · have hlt : g.target < e.containers.length :=
        (List.getElem?_eq_some_iff.mp hc).1
      subst hk
      rw [if_pos rfl, if_pos hlt, hc]
      rfl
    · rw [if_neg hk]
  · rfl

theorem updateOrder_cons (e : Environment) (dt : ℚ) (i : ℕ) (l : List ℕ) :
    e.updateOrder dt (i :: l) =
      (e.updateStep dt i).bind (fun e₁ => e₁.updateOrder dt l) := by
  cases h : e.updateStep dt i <;> simp [Environment.updateOrder, h]

theorem updateOrder_grabbers {dt : ℚ} :
    ∀ (l : List ℕ) (e e₁ : Environment),
      e.updateOrder dt l = some e₁ → e₁.grabbers = e.grabbers
  | [], e, e₁, h => by
    cases Option.some.inj h
    rfl
  | i :: l, e, e₁, h => by
    rw [updateOrder_cons] at h
    cases hstep : e.updateStep dt i with
    | none => rw [hstep] at h; exact absurd h (by simp)
    | some e₂ =>
      rw [hstep] at h
      exact (updateOrder_grabbers l e₂ e₁ h).trans (step_grabbers hstep)

theorem updateOrder_states_not_mem {dt : ℚ} {j : ℕ} :
    ∀ (l : List ℕ) (e e₁ : Environment), j ∉ l →
      e.updateOrder dt l = some e₁ →
      e₁.grabberStates[j]? = e.grabberStates[j]?
  | [], e, e₁, _, h => by
    cases Option.some.inj h
    rfl
  | i :: l, e, e₁, hj, h => by
    rw [updateOrder_cons] at h
    cases hstep : e.updateStep dt i with
    | none => rw [hstep] at h; exact absurd h (by simp)
    | some e₂ =>
      rw [hstep] at h
      have hji : i ≠ j := fun hh => hj (hh ▸ List.mem_cons_self i l)
      exact (updateOrder_states_not_mem l e₂ e₁
        (fun hh => hj (List.mem_cons_of_mem i hh)) h).trans
        (step_states_other hji hstep)

theorem updateOrder_states_mem {dt : ℚ} {j : ℕ} :
    ∀ (l : List ℕ) (e e₁ : Environment), l.Nodup → j ∈ l →
      e.updateOrder dt l = some e₁ →
      e₁.grabberStates[j]? = (e.grabberStates[j]?).map (stepState dt)
  | [], _, _, _, hj, _ => absurd hj (List.not_mem_nil j)
  | i :: l, e, e₁, hnd, hj, h => by
    rw [updateOrder_cons] at h
    cases hstep : e.updateStep dt i with
    | none => rw [hstep] at h; exact absurd h (by simp)
    | some e₂ =>
      rw [hstep] at h
      by_cases hji : j = i
      · subst hji
        have hjl : j ∉ l := (List.nodup_cons.mp hnd).1
        obtain ⟨s, hs, -⟩ := step_shape hstep
        rw [updateOrder_states_not_mem l e₂ e₁ hjl h,
          step_states_self hs hstep, hs]
        rfl
      · have hj' : j ∈ l := by
          cases List.mem_cons.mp hj with
          | inl hh => exact absurd hh hji
          | inr hh => exact hh
        rw [updateOrder_states_mem l e₂ e₁ (List.nodup_cons.mp hnd).2 hj' h,
          step_states_other (fun hh => hji hh.symm) hstep]

theorem update_states_get {e e₁ : Environment} {dt : ℚ}
    (h : e.update dt = some e₁) (i : ℕ) :
    e₁.grabberStates[i]? =
      if i < e.grabbers.length then
        (e.grabberStates[i]?).map (stepState dt)
      else e.grabberStates[i]? := by
  by_cases hi : i < e.grabbers.length
  · rw [if_pos hi]
    exact updateOrder_states_mem _ e e₁ (List.nodup_range _)
      (List.mem_range.mpr hi) h
  · rw [if_neg hi]
    exact updateOrder_states_not_mem _ e e₁
      (fun hh => hi (List.mem_range.mp hh)) h

theorem getElem?_snoc {α : Type} {l : List α} {x y : α} {i : ℕ}
    (h : (l ++ [x])[i]? = some y) : l[i]? = some y ∨ y = x := by
  rcases Nat.lt_trichotomy i l.length with hlt | heq | hgt
  · left
    rw [List.getElem?_append_left hlt] at h
    exact h
  · right
    subst heq
    rw [List.getElem?_concat_length] at h
    exact (Option.some.inj h).symm
  · exfalso
    have hnone : (l ++ [x])[i]? = none :=
      List.getElem?_eq_none (by simp; omega)
    rw [hnone] at h
    exact absurd h (by simp)

theorem getElem?_set_cases {α : Type} {l : List α} {t k : ℕ} {x y : α}
    (h : (l.set t x)[k]? = some y) : y = x ∨ l[k]? = some y := by
  rw [List.getElem?_set] at h
  by_cases htk : t = k
  · rw [if_pos htk] at h
    by_cases hlt : t < l.length
    · rw [if_pos hlt] at h
      exact Or.inl (Option.some.inj h).symm
    · rw [if_neg hlt] at h
      exact absurd h (by simp)
  · rw [if_neg htk] at h
    exact Or.inr h

theorem updateOrder_preserves {P : Environment → Prop}
    (hstep : ∀ e e₁ dt i, P e → e.updateStep dt i = some e₁ → P e₁)
    {dt : ℚ} :
    ∀ (l : List ℕ) (e e₁ : Environment), P e →
      e.updateOrder dt l = some e₁ → P e₁
  | [], e, e₁, hp, h => by
    cases Option.some.inj h
    exact hp
  | i :: l, e, e₁, hp, h => by
    rw [updateOrder_cons] at h
    cases hstep₀ : e.updateStep dt i with
    | none => rw [hstep₀] at h; exact absurd h (by simp)
    | some e₂ =>
      rw [hstep₀] at h
      exact updateOrder_preserves hstep l e₂ e₁ (hstep e e₂ dt i hp hstep₀) h

theorem update_preserves {P : Environment → Prop}
    (hstep : ∀ e e₁ dt i, P e → e.updateStep dt i = some e₁ → P e₁)
    {e e₁ : Environment} {dt : ℚ} (hp : P e) (h : e.update dt = some e₁) :
    P e₁ :=
  updateOrder_preserves hstep _ e e₁ hp h

theorem reach_inv_of_preserved {P : Environment → Prop}
    (hnew : P Environment.new)
    (haddc : ∀ e c, P e → P (Environment.add_container e c).1)
    (haddg : ∀ e g, P e → P (Environment.add_grabber e g).1)
    (hgrab : ∀ e e₁ gid r, P e → Environment.grab e gid = some (e₁, r) → P e₁)
    (hupd : ∀ e e₁ dt, P e → Environment.update e dt = some e₁ → P e₁)
    {e : Environment} (h : Reach e) : P e := by
  induction h with
  | new => exact hnew
  | add_container c h ih => exact haddc _ c ih
  | add_grabber g h ih => exact haddg _ g ih
  | grab h heq ih => exact hgrab _ _ _ _ ih heq
  | update h heq ih => exact hupd _ _ _ ih heq

/-- C2: for a container holding `a`, `take v` returns the whole amount
`a` and empties the container when `v ≥ a`, and returns exactly `v`
leaving `a - v` when `v < a`. -/
theorem take_spec (a v : ℚ) :
    (v ≥ a → Container.take ⟨a⟩ v = (⟨0⟩, a)) ∧
    (v < a → Container.take ⟨a⟩ v = (⟨a - v⟩, v)) := by
  constructor
  · intro h
    simp [Container.take, h]
  · intro h
    simp [Container.take, not_le.mpr h]

theorem take_spec_w :
    Container.take ⟨2⟩ 5 = (⟨0⟩, 2) ∧ Container.take ⟨7⟩ 5 = (⟨2⟩, 5) :=
  ⟨(take_spec 2 5).1 (by norm_num),
   by
    have h := (take_spec 7 5).2 (by norm_num)
    norm_num at h ⊢
    exact h⟩

/-- C3: `grab` on an in-range grabber whose state has `remaining_time > 0`
returns the busy outcome and leaves the whole environment unchanged. -/
theorem grab_busy_no_mutation (e : Environment) (gid : ℕ) (s : GrabberState)
    (hs : e.grabberStates[gid]? = some s) (ht : 0 < s.time) :
    e.grab gid = some (e, GrabOutcome.busy) := by
  unfold Environment.grab
  simp only [hs]
  rw [if_neg ht.ne']

theorem grab_busy_no_mutation_w :
    (⟨[⟨8⟩, ⟨0⟩], [⟨2, 1, 0, 1⟩], [⟨1, 2⟩]⟩ : Environment).grab 0 =
      some (⟨[⟨8⟩, ⟨0⟩], [⟨2, 1, 0, 1⟩], [⟨1, 2⟩]⟩, GrabOutcome.busy) :=
  grab_busy_no_mutation _ 0 ⟨1, 2⟩ rfl (by norm_num)

/-- C10: a successful `grab gid` changes only the source container of
grabber `gid` and the grabber state at index `gid`; the grabber
configurations, all other containers, all other grabber states, and the
lengths of the collections are unchanged. -/
theorem grab_frame (e e₁ : Environment) (gid : ℕ) (g : Grabber)
    (hg : e.grabbers[gid]? = some g)
    (h : e.grab gid = some (e₁, GrabOutcome.ok)) :
    e₁.grabbers = e.grabbers ∧
    e₁.containers.length = e.containers.length ∧
    e₁.grabberStates.length = e.grabberStates.length ∧
    (∀ k, k ≠ g.source → e₁.containers[k]? = e.containers[k]?) ∧
    (∀ k, k ≠ gid → e₁.grabberStates[k]? = e.grabberStates[k]?) := by
  obtain ⟨s, g', c, hs, ht, hg', hc, rfl⟩ := grab_ok_shape h
  rw [hg] at hg'
  obtain rfl : g = g' := Option.some.inj hg'
  refine ⟨rfl, by simp, by simp, ?_, ?_⟩
  · intro k hk
    exact List.getElem?_set_ne (fun hkk => hk (hkk.symm))
  · intro k hk
    exact List.getElem?_set_ne (fun hkk => hk (hkk.symm))

theorem grab_frame_w :
    (⟨[⟨8⟩, ⟨0⟩], [⟨2, 1, 0, 1⟩], [⟨1, 2⟩]⟩ : Environment).containers[1]? =
      envA.containers[1]? :=
  (grab_frame envA ⟨[⟨8⟩, ⟨0⟩], [⟨2, 1, 0, 1⟩], [⟨1, 2⟩]⟩ 0 ⟨2, 1, 0, 1⟩
    rfl (by norm_num [envA, Environment.grab, Container.take])).2.2.2.1
    1 (by norm_num)

theorem step_zerovol {e e₁ : Environment} {dt : ℚ} {j : ℕ}
    (hvol : ∀ s, e.grabberStates[j]? = some s → s.volume = 0)
    (h : e.updateStep dt j = some e₁) :
    (∀ (k : ℕ), e₁.containers[k]? = e.containers[k]?) ∧
    (∀ s, e₁.grabberStates[j]? = some s → s.volume = 0) := by
  obtain ⟨s, hs, ⟨g, c, hcond, hg, hc, rfl⟩ | ⟨hcond, rfl⟩⟩ := step_shape h
  · have hv0 : s.volume = 0 := hvol s hs
    constructor
    · intro k
      show (e.containers.set g.target (c.put s.volume))[k]? = _
      rw [hv0, Container.put_zero]
      by_cases hk : g.target = k
      · subst hk
        rw [List.getElem?_set_self (List.getElem?_eq_some_iff.mp hc).1, hc]
      · exact List.getElem?_set_ne hk
    · intro s' hs'
      have hs2 : (e.grabberStates.set j (⟨0, 0⟩ : GrabberState))[j]? =
        some s' := hs'
      rw [List.getElem?_set_self (List.getElem?_eq_some_iff.mp hs).1] at hs2
      cases Option.some.inj hs2
      rfl
  · constructor
    · intro k
      rfl
    · intro s' hs'
      have hs2 : (e.grabberStates.set j
          (⟨s.time - dt, s.volume⟩ : GrabberState))[j]? = some s' := hs'
      rw [List.getElem?_set_self (List.getElem?_eq_some_iff.mp hs).1] at hs2
      cases Option.some.inj hs2
      exact hvol s hs

theorem updateOrder_vols {dt : ℚ} :
    ∀ (l : List ℕ) (e e₁ : Environment),
      (∀ j, j ∈ l → ∀ s, e.grabberStates[j]? = some s → s.volume = 0) →
      e.updateOrder dt l = some e₁ →
      (∀ (k : ℕ), e₁.containers[k]? = e.containers[k]?) ∧
      (∀ (k : ℕ), k ∉ l → e₁.grabberStates[k]? = e.grabberStates[k]?) ∧
      (∀ j, j ∈ l → ∀ s, e₁.grabberStates[j]? = some s → s.volume = 0) ∧
      e₁.grabbers = e.grabbers
  | [], e, e₁, hvol, h => by
    cases Option.some.inj h
    exact ⟨fun k => rfl, fun k _ => rfl,
      fun j hj => absurd hj (List.not_mem_nil j), rfl⟩
  | i :: l, e, e₁, hvol, h => by
    rw [updateOrder_cons] at h
    cases hstep : e.updateStep dt i with
    | none =>
      rw [hstep] at h
      exact absurd h (by simp)
    | some e₂ =>
      rw [hstep] at h
      have hz := step_zerovol (hvol i (List.mem_cons_self i l)) hstep
      have hvol₂ : ∀ j, j ∈ l → ∀ s, e₂.grabberStates[j]? = some s →
          s.volume = 0 := by
        intro j hj s hs
        by_cases hji : j = i
        · subst hji
          exact hz.2 s hs
        · rw [step_states_other (fun hh => hji hh.symm) hstep] at hs
          exact hvol j (List.mem_cons_of_mem i hj) s hs
      obtain ⟨hC, hS, hV, hG⟩ := updateOrder_vols l e₂ e₁ hvol₂ h
      refine ⟨?_, ?_, ?_, hG.trans (step_grabbers hstep)⟩
      · intro k
        rw [hC k, hz.1 k]
      · intro k hk
        have hki : i ≠ k := fun hh => hk (hh ▸ List.mem_cons_self i l)
        rw [hS k (fun hh => hk (List.mem_cons_of_mem _ hh)),
          step_states_other hki hstep]
      · intro j hj s hs
        by_cases hjl : j ∈ l
        · exact hV j hjl s hs
        · have hji : j = i := by
            cases List.mem_cons.mp hj with
            | inl hh => exact hh
            | inr hh => exact absurd hh hjl
          subst hji
          rw [hS j hjl] at hs
          exact hz.2 s hs

theorem update_zerovol {e e₁ : Environment} {dt : ℚ}
    (hvol : ∀ (j : ℕ) (s : GrabberState), e.grabberStates[j]? = some s →
      s.volume = 0)
    (h : e.update dt = some e₁) :
    (∀ (k : ℕ), e₁.containers[k]? = e.containers[k]?) ∧
    (∀ (j : ℕ) (s : GrabberState), e₁.grabberStates[j]? = some s →
      s.volume = 0) ∧
    e₁.grabbers = e.grabbers := by
  obtain ⟨hC, hS, hV, hG⟩ :=
    updateOrder_vols _ e e₁ (fun j _ => hvol j) h
  refine ⟨hC, ?_, hG⟩
  intro j s hs
  by_cases hj : j ∈ List.range e.grabbers.length
  · exact hV j hj s hs
  · rw [hS j hj] at hs
    exact hvol j s hs

theorem updates_zerovol :
    ∀ (ds : List ℚ) (e e₁ : Environment),
      (∀ (j : ℕ) (s : GrabberState), e.grabberStates[j]? = some s →
        s.volume = 0) →
      e.updates ds = some e₁ →
      (∀ (k : ℕ), e₁.containers[k]? = e.containers[k]?) ∧
      e₁.grabbers = e.grabbers
  | [], e, e₁, hvol, h => by
    cases Option.some.inj h
    exact ⟨fun k => rfl, rfl⟩
  | d :: ds, e, e₁, hvol, h => by
    unfold Environment.updates at h
    revert h
    cases hupd : e.update d with
    | none =>
      intro h
      exact absurd h (by simp)
    | some e₂ =>
      intro h
      obtain ⟨hC, hV, hG⟩ := update_zerovol hvol hupd
      obtain ⟨hC₂, hG₂⟩ := updates_zerovol ds e₂ e₁ hV h
      exact ⟨fun k => (hC₂ k).trans (hC k), hG₂.trans hG⟩

theorem update_othersIdle {e e₁ : Environment} {dt : ℚ} {gid : ℕ}
    (hvol : othersIdle e gid) (h : e.update dt = some e₁) :
    othersIdle e₁ gid := by
  intro j s hj hs
  have hc := update_states_get h j
  by_cases hlt : j < e.grabbers.length
  · rw [if_pos hlt] at hc
    rw [hc] at hs
    cases hsj : e.grabberStates[j]? with
    | none =>
      rw [hsj] at hs
      exact absurd hs (by simp)
    | some s₀ =>
      rw [hsj] at hs
      obtain rfl : stepState dt s₀ = s := Option.some.inj hs
      have h₀ : s₀.volume = 0 := hvol j s₀ hj hsj
      unfold stepState
      split
      · rfl
      · exact h₀
  · rw [if_neg hlt] at hc
    rw [hc] at hs
    exact hvol j s hj hs

theorem updateOrder_tracked {dt : ℚ} {gid : ℕ} {g : Grabber}
    {s : GrabberState} :
    ∀ (l : List ℕ) (e e₁ : Environment), l.Nodup → gid ∈ l →
      e.grabbers[gid]? = some g →
      e.grabberStates[gid]? = some s →
      (∀ j, j ∈ l → j ≠ gid → ∀ s', e.grabberStates[j]? = some s' →
        s'.volume = 0) →
      e.updateOrder dt l = some e₁ →
      (if s.time - dt ≤ 0 then
        (∀ (k : ℕ), k ≠ g.target → e₁.containers[k]? = e.containers[k]?) ∧
        (∀ c, e.containers[g.target]? = some c →
          e₁.containers[g.target]? = some (c.put s.volume))
      else (∀ (k : ℕ), e₁.containers[k]? = e.containers[k]?))
  | [], e, e₁, _, hmem, _, _, _, _ => absurd hmem (List.not_mem_nil gid)
  | i :: l, e, e₁, hnd, hmem, hg, hs, hvol, h => by
    rw [updateOrder_cons] at h
    cases hstep : e.updateStep dt i with
    | none =>
      rw [hstep] at h
      exact absurd h (by simp)
    | some e₂ =>
      rw [hstep] at h
      by_cases hig : i = gid
      · subst hig
        have hil : i ∉ l := (List.nodup_cons.mp hnd).1
        have hvol₂ : ∀ j, j ∈ l → ∀ s', e₂.grabberStates[j]? = some s' →
            s'.volume = 0 := by
          intro j hj s' hs'
          have hji : j ≠ i := fun hh => hil (hh ▸ hj)
          rw [step_states_other (fun hh => hji hh.symm) hstep] at hs'
          exact hvol j (List.mem_cons_of_mem i hj) hji s' hs'
        obtain ⟨hC, -, -, -⟩ :=
          updateOrder_vols l e₂ e₁ hvol₂ h
        obtain ⟨s', hs', ⟨g', c, hcond, hg', hc, rfl⟩ | ⟨hcond, rfl⟩⟩ :=
          step_shape hstep
        · rw [hs] at hs'
          obtain rfl : s = s' := Option.some.inj hs'
          rw [hg] at hg'
          obtain rfl : g = g' := Option.some.inj hg'
          rw [if_pos hcond]
          constructor
          · intro k hk
            rw [hC k]
            exact List.getElem?_set_ne (fun hh => hk hh.symm)
          · intro c' hc'
            rw [hc] at hc'
            obtain rfl : c = c' := Option.some.inj hc'
            rw [hC g.target]
            exact List.getElem?_set_self (List.getElem?_eq_some_iff.mp hc).1
        · rw [hs] at hs'
          obtain rfl : s = s' := Option.some.inj hs'
          rw [if_neg hcond]
          intro k
          exact hC k
      · have hz := step_zerovol
          (hvol i (List.mem_cons_self i l) hig) hstep
        have hmem₂ : gid ∈ l := by
          cases List.mem_cons.mp hmem with
          | inl hh => exact absurd hh.symm hig
          | inr hh => exact hh
        have hg₂ : e₂.grabbers[gid]? = some g := by
          rw [step_grabbers hstep]
          exact hg
        have hs₂ : e₂.grabberStates[gid]? = some s := by
          rw [step_states_other hig hstep]
          exact hs
        have hvol₂ : ∀ j, j ∈ l → j ≠ gid → ∀ s',
            e₂.grabberStates[j]? = some s' → s'.volume = 0 := by
          intro j hj hjg s' hs'
          by_cases hji : j = i
          · subst hji
            exact hz.2 s' hs'
          · rw [step_states_other (fun hh => hji hh.symm) hstep] at hs'
            exact hvol j (List.mem_cons_of_mem i hj) hjg s' hs'
        have hrec := updateOrder_tracked l e₂ e₁ (List.nodup_cons.mp hnd).2
          hmem₂ hg₂ hs₂ hvol₂ h
        by_cases hcond : s.time - dt ≤ 0
        · rw [if_pos hcond] at hrec ⊢
          constructor
          · intro k hk
            rw [hrec.1 k hk, hz.1 k]
          · intro c hc
            have hc₂ : e₂.containers[g.target]? = some c := by
              rw [hz.1 g.target]
              exact hc
            exact hrec.2 c hc₂
        · rw [if_neg hcond] at hrec ⊢
          intro k
          rw [hrec k, hz.1 k]

theorem update_tracked {e e₁ : Environment} {dt : ℚ} {gid : ℕ}
    {g : Grabber} {s : GrabberState}
    (hg : e.grabbers[gid]? = some g)
    (hs : e.grabberStates[gid]? = some s)
    (hvol : othersIdle e gid)
    (h : e.update dt = some e₁) :
    e₁.grabberStates[gid]? = some (stepState dt s) ∧
    e₁.grabbers = e.grabbers ∧
    othersIdle e₁ gid ∧
    (if s.time - dt ≤ 0 then
      (∀ (k : ℕ), k ≠ g.target → e₁.containers[k]? = e.containers[k]?) ∧
      (∀ c, e.containers[g.target]? = some c →
        e₁.containers[g.target]? = some (c.put s.volume))
    else (∀ (k : ℕ), e₁.containers[k]? = e.containers[k]?)) := by
  have hlt : gid < e.grabbers.length :=
    (List.getElem?_eq_some_iff.mp hg).1
  refine ⟨?_, updateOrder_grabbers _ e e₁ h, update_othersIdle hvol h, ?_⟩
  · rw [updateOrder_states_mem _ e e₁ (List.nodup_range _)
      (List.mem_range.mpr hlt) h, hs]
    rfl
  · exact updateOrder_tracked _ e e₁ (List.nodup_range _)
      (List.mem_range.mpr hlt) hg hs
      (fun j _ hjg s' hs' => hvol j s' hjg hs') h

theorem updates_deposit {gid : ℕ} {g : Grabber} :
    ∀ (ds : List ℚ) (e e₁ : Environment) (t a b : ℚ),
      e.grabbers[gid]? = some g →
      g.source ≠ g.target →
      othersIdle e gid →
      e.grabberStates[gid]? = some ⟨t, a⟩ →
      e.containers[g.source]? = some ⟨0⟩ →
      e.containers[g.target]? = some ⟨b⟩ →
      0 < t → t ≤ ds.sum →
      e.updates ds = some e₁ →
      e₁.containers[g.source]? = some ⟨0⟩ ∧
      e₁.containers[g.target]? = some ⟨b + a⟩
  | [], e, e₁, t, a, b, _, _, _, _, _, _, ht0, hts, _ => by
    exfalso
    simp at hts
    linarith
  | d :: ds, e, e₁, t, a, b, hg, hst, hvol, hs, hsrc, htgt, ht0, hts, h => by
    unfold Environment.updates at h
    revert h
    cases hupd : e.update d with
    | none =>
      intro h
      exact absurd h (by simp)
    | some e₂ =>
      intro h
      obtain ⟨hS, hG, hO, hbr⟩ := update_tracked hg hs hvol hupd
      have hsum : (d :: ds).sum = d + ds.sum := List.sum_cons
      by_cases hcond : t - d ≤ 0
      · have hcond' : (⟨t, a⟩ : GrabberState).time - d ≤ 0 := hcond
        rw [if_pos hcond'] at hbr
        have hsrc₂ : e₂.containers[g.source]? = some ⟨0⟩ := by
          rw [hbr.1 g.source hst]
          exact hsrc
        have htgt₂ : e₂.containers[g.target]? = some ⟨b + a⟩ :=
          hbr.2 ⟨b⟩ htgt
        have hgid0 : e₂.grabberStates[gid]? = some ⟨0, 0⟩ := by
          rw [hS]
          unfold stepState
          rw [if_pos hcond']
        have hallz : ∀ (j : ℕ) (s : GrabberState),
            e₂.grabberStates[j]? = some s → s.volume = 0 := by
          intro j s hjs
          by_cases hj : j = gid
          · subst hj
            rw [hgid0] at hjs
            cases Option.some.inj hjs
            rfl
          · exact hO j s hj hjs
        obtain ⟨hC, -⟩ := updates_zerovol ds e₂ e₁ hallz h
        constructor
        · rw [hC g.source]
          exact hsrc₂
        · rw [hC g.target]
          exact htgt₂
      · have hcond' : ¬ (⟨t, a⟩ : GrabberState).time - d ≤ 0 := hcond
        rw [if_neg hcond'] at hbr
        have hg₂ : e₂.grabbers[gid]? = some g := by
          rw [hG]
          exact hg
        have hs₂ : e₂.grabberStates[gid]? = some ⟨t - d, a⟩ := by
          rw [hS]
          unfold stepState
          rw [if_neg hcond']
        have hsrc₂ : e₂.containers[g.source]? = some ⟨0⟩ := by
          rw [hbr g.source]
          exact hsrc
        have htgt₂ : e₂.containers[g.target]? = some ⟨b⟩ := by
          rw [hbr g.target]
          exact htgt
        have ht0₂ : 0 < t - d := by
          rcases not_le.mp hcond with hlt
          exact hlt
        have hts₂ : t - d ≤ ds.sum := by
          rw [hsum] at hts
          linarith
        exact updates_deposit ds e₂ e₁ (t - d) a b hg₂ hst hO hs₂
          hsrc₂ htgt₂ ht0₂ hts₂ h

theorem updates_no_deposit {gid : ℕ} {g : Grabber} :
    ∀ (ds : List ℚ) (e e₁ : Environment) (t w : ℚ),
      e.grabbers[gid]? = some g →
      othersIdle e gid →
      e.grabberStates[gid]? = some ⟨t, w⟩ →
      (∀ d, d ∈ ds → 0 ≤ d) →
      ds.sum < t →
      e.updates ds = some e₁ →
      (∀ (k : ℕ), e₁.containers[k]? = e.containers[k]?) ∧
      e₁.grabberStates[gid]? = some ⟨t - ds.sum, w⟩
  | [], e, e₁, t, w, _, _, hs, _, _, h => by
    cases Option.some.inj h
    refine ⟨fun k => rfl, ?_⟩
    rw [hs]
    norm_num
  | d :: ds, e, e₁, t, w, hg, hvol, hs, hnn, hts, h => by
    unfold Environment.updates at h
    revert h
    cases hupd : e.update d with
    | none =>
      intro h
      exact absurd h (by simp)
    | some e₂ =>
      intro h
      obtain ⟨hS, hG, hO, hbr⟩ := update_tracked hg hs hvol hupd
      have hsum : (d :: ds).sum = d + ds.sum := List.sum_cons
      have hds0 : 0 ≤ ds.sum :=
        List.sum_nonneg (fun x hx => hnn x (List.mem_cons_of_mem d hx))
      have hcond : ¬ (t - d ≤ 0) := by
        rw [hsum] at hts
        push_neg
        linarith
      have hcond' : ¬ (⟨t, w⟩ : GrabberState).time - d ≤ 0 := hcond
      rw [if_neg hcond'] at hbr
      have hg₂ : e₂.grabbers[gid]? = some g := by
        rw [hG]
        exact hg
      have hs₂ : e₂.grabberStates[gid]? = some ⟨t - d, w⟩ := by
        rw [hS]
        unfold stepState
        rw [if_neg hcond']
      have hts₂ : ds.sum < t - d := by
        rw [hsum] at hts
        linarith
      obtain ⟨hC, hSfin⟩ := updates_no_deposit ds e₂ e₁ (t - d) w hg₂ hO
        hs₂ (fun x hx => hnn x (List.mem_cons_of_mem d hx)) hts₂ h
      constructor
      · intro k
        rw [hC k, hbr k]
      · rw [hSfin, hsum]
        congr 2
        ring

/-- C9: in every reachable environment, the grabber collection and the
grabber-state collection have the same length. -/
theorem grabbers_states_length_eq (e : Environment) (h : Reach e) :
    e.grabbers.length = e.grabberStates.length := by
  refine reach_inv_of_preserved
    (P := fun e => e.grabbers.length = e.grabberStates.length)
    ?_ ?_ ?_ ?_ ?_ h
  · rfl
  · intro e c hp
    simpa [Environment.add_container] using hp
  · intro e g hp
    simp [Environment.add_grabber, hp]
  · intro e e₁ gid r hp heq
    cases r with
    | busy =>
      obtain ⟨rfl, -⟩ := grab_busy_shape heq
      exact hp
    | ok =>
      obtain ⟨s, g, c, hs, ht, hg, hc, rfl⟩ := grab_ok_shape heq
      simpa using hp
  · intro e e₁ dt hp heq
    refine update_preserves
      (P := fun e => e.grabbers.length = e.grabberStates.length)
      ?_ hp heq
    intro e e₁ dt i hpp hstep
    rw [step_grabbers hstep, step_states_length hstep]
    exact hpp

theorem grabbers_states_length_eq_w :
    envA.grabbers.length = envA.grabberStates.length :=
  grabbers_states_length_eq envA
    (Reach.add_grabber ⟨2, 1, 0, 1⟩
      (Reach.add_container ⟨0⟩ (Reach.add_container ⟨10⟩ Reach.new)))

theorem reachNZ_inv {e : Environment} (h : ReachNZ e) :
    (∀ (i : ℕ) (g : Grabber), e.grabbers[i]? = some g → g.time ≠ 0) ∧
    (∀ (i : ℕ) (s : GrabberState), e.grabberStates[i]? = some s →
      s.time = 0 → s.volume = 0) := by
  induction h with
  | new =>
    constructor
    · intro i g hg
      exact absurd hg (by simp [Environment.new])
    · intro i s hs
      exact absurd hs (by simp [Environment.new])
  | add_container c h ih =>
    exact ih
  | add_grabber g hne h ih =>
    rename_i e
    constructor
    · intro i g' hg'
      have hg2 : (e.grabbers ++ [g])[i]? = some g' := hg'
      rcases getElem?_snoc hg2 with hold | rfl
      · exact ih.1 i g' hold
      · exact hne
    · intro i s hs hst
      have hs2 : (e.grabberStates ++ [⟨0, 0⟩])[i]? = some s := hs
      rcases getElem?_snoc hs2 with hold | rfl
      · exact ih.2 i s hold hst
      · rfl
  | grab h heq ih =>
    rename_i e e₁ gid r
    cases r with
    | busy =>
      obtain ⟨rfl, -⟩ := grab_busy_shape heq
      exact ih
    | ok =>
      obtain ⟨s, g, c, hs, ht, hg, hc, rfl⟩ := grab_ok_shape heq
      refine ⟨ih.1, ?_⟩
      intro i s' hs' hst
      have hs2 : (e.grabberStates.set gid
          ⟨g.time, (c.take g.volume).2⟩)[i]? = some s' := hs'
      rcases getElem?_set_cases hs2 with rfl | hold
      · exact absurd hst (ih.1 gid g hg)
      · exact ih.2 i s' hold hst
  | update h heq ih =>
    refine update_preserves
      (P := fun e =>
        (∀ (i : ℕ) (g : Grabber), e.grabbers[i]? = some g → g.time ≠ 0) ∧
        (∀ (i : ℕ) (s : GrabberState), e.grabberStates[i]? = some s →
          s.time = 0 → s.volume = 0))
      ?_ ih heq
    intro e e₁ dt i hpp hstep
    obtain ⟨s, hs, ⟨g, c, hcond, hg, hc, rfl⟩ | ⟨hcond, rfl⟩⟩ :=
      step_shape hstep
    · refine ⟨hpp.1, ?_⟩
      intro k s' hs' hst
      have hs2 : (e.grabberStates.set i (⟨0, 0⟩ : GrabberState))[k]? =
        some s' := hs'
      rcases getElem?_set_cases hs2 with rfl | hold
      · rfl
      · exact hpp.2 k s' hold hst
    · refine ⟨hpp.1, ?_⟩
      intro k s' hs' hst
      have hs2 : (e.grabberStates.set i
          (⟨s.time - dt, s.volume⟩ : GrabberState))[k]? = some s' := hs'
      rcases getElem?_set_cases hs2 with rfl | hold
      · exact absurd (le_of_eq hst) hcond
      · exact hpp.2 k s' hold hst

/-- C4 counterexample: activating a grabber of duration 0 (allowed by
creation, which validates nothing) on a container holding 1 leaves the
grabber state with `remaining_time = 0` but `in_transit_volume = 1 ≠ 0`,
in an environment reachable by creation and `grab` alone. -/
theorem idle_zero_volume_cex :
    Reach ⟨[⟨0⟩], [⟨1, 0, 0, 0⟩], [⟨0, 1⟩]⟩ ∧
    (⟨[⟨0⟩], [⟨1, 0, 0, 0⟩], [⟨0, 1⟩]⟩ :
      Environment).grabberStates[0]? = some ⟨0, 1⟩ ∧
    (⟨0, 1⟩ : GrabberState).time = 0 ∧ (⟨0, 1⟩ : GrabberState).volume ≠ 0 := by
  have hgrab : (((Environment.new.add_container ⟨1⟩).1.add_grabber
      ⟨1, 0, 0, 0⟩).1).grab 0 =
      some (⟨[⟨0⟩], [⟨1, 0, 0, 0⟩], [⟨0, 1⟩]⟩, GrabOutcome.ok) := by
    norm_num [Environment.new, Environment.add_container,
      Environment.add_grabber, Environment.grab, Container.take]
  refine ⟨Reach.grab (Reach.add_grabber ⟨1, 0, 0, 0⟩
    (Reach.add_container ⟨1⟩ Reach.new)) hgrab, rfl, rfl, by norm_num⟩

/-- C4 (amended): in every environment reachable by creation, `grab` and
`update` operations in which every created grabber has a nonzero
duration, every grabber state with `remaining_time = 0` has
`in_transit_volume = 0`.  (A `grab` on a duration-0 grabber violates the
invariant, so such grabbers are excluded.) -/
theorem idle_zero_volume_inv (e : Environment) (h : ReachNZ e) (i : ℕ)
    (s : GrabberState) (hs : e.grabberStates[i]? = some s)
    (ht : s.time = 0) : s.volume = 0 :=
  (reachNZ_inv h).2 i s hs ht

theorem idle_zero_volume_inv_w : (⟨0, 0⟩ : GrabberState).volume = 0 :=
  idle_zero_volume_inv _
    (ReachNZ.add_grabber ⟨2, 1, 0, 0⟩ (by norm_num)
      (ReachNZ.add_container ⟨1⟩ ReachNZ.new)) 0 ⟨0, 0⟩ rfl rfl

theorem take_nonneg {c : Container} {v : ℚ} (hc : 0 ≤ c.amount)
    (hv : 0 ≤ v) : 0 ≤ (c.take v).1.amount ∧ 0 ≤ (c.take v).2 := by
  unfold Container.take
  by_cases h : c.amount ≤ v
  · rw [if_pos h]
    exact ⟨le_refl 0, hc⟩
  · rw [if_neg h]
    refine ⟨?_, hv⟩
    have hlt : v < c.amount := not_le.mp h
    show (0 : ℚ) ≤ c.amount - v
    linarith

theorem reachNN_inv {e : Environment} (h : ReachNN e) :
    (∀ (i : ℕ) (c : Container), e.containers[i]? = some c →
      0 ≤ c.amount) ∧
    (∀ (i : ℕ) (s : GrabberState), e.grabberStates[i]? = some s →
      0 ≤ s.volume) ∧
    (∀ (i : ℕ) (g : Grabber), e.grabbers[i]? = some g →
      0 ≤ g.volume) := by
  induction h with
  | new =>
    refine ⟨?_, ?_, ?_⟩ <;> intro i x hx <;>
      exact absurd hx (by simp [Environment.new])
  | add_container c hc h ih =>
    rename_i e
    refine ⟨?_, ih.2.1, ih.2.2⟩
    intro i c' hc'
    have hc2 : (e.containers ++ [c])[i]? = some c' := hc'
    rcases getElem?_snoc hc2 with hold | rfl
    · exact ih.1 i c' hold
    · exact hc
  | add_grabber g hg h ih =>
    rename_i e
    refine ⟨ih.1, ?_, ?_⟩
    · intro i s hs
      have hs2 : (e.grabberStates ++ [⟨0, 0⟩])[i]? = some s := hs
      rcases getElem?_snoc hs2 with hold | rfl
      · exact ih.2.1 i s hold
      · exact le_refl 0
    · intro i g' hg'
      have hg2 : (e.grabbers ++ [g])[i]? = some g' := hg'
      rcases getElem?_snoc hg2 with hold | rfl
      · exact ih.2.2 i g' hold
      · exact hg
  | grab h heq ih =>
    rename_i e e₁ gid r
    cases r with
    | busy =>
      obtain ⟨rfl, -⟩ := grab_busy_shape heq
      exact ih
    | ok =>
      obtain ⟨s, g, c, hs, ht, hg, hc, rfl⟩ := grab_ok_shape heq
      have hcnn : 0 ≤ c.amount := ih.1 g.source c hc
      have hvnn : 0 ≤ g.volume := ih.2.2 gid g hg
      have htk := take_nonneg hcnn hvnn
      refine ⟨?_, ?_, ih.2.2⟩
      · intro i c' hc'
        have hc2 : (e.containers.set g.source (c.take g.volume).1)[i]? =
          some c' := hc'
        rcases getElem?_set_cases hc2 with rfl | hold
        · exact htk.1
        · exact ih.1 i c' hold
      · intro i s' hs'
        have hs2 : (e.grabberStates.set gid
            ⟨g.time, (c.take g.volume).2⟩)[i]? = some s' := hs'
        rcases getElem?_set_cases hs2 with rfl | hold
        · exact htk.2
        · exact ih.2.1 i s' hold
  | update h heq ih =>
    refine update_preserves
      (P := fun e =>
        (∀ (i : ℕ) (c : Container), e.containers[i]? = some c →
          0 ≤ c.amount) ∧
        (∀ (i : ℕ) (s : GrabberState), e.grabberStates[i]? = some s →
          0 ≤ s.volume) ∧
        (∀ (i : ℕ) (g : Grabber), e.grabbers[i]? = some g →
          0 ≤ g.volume))
      ?_ ih heq
    intro e e₁ dt i hpp hstep
    obtain ⟨s, hs, ⟨g, c, hcond, hg, hc, rfl⟩ | ⟨hcond, rfl⟩⟩ :=
      step_shape hstep
    · have hsnn : 0 ≤ s.volume := hpp.2.1 i s hs
      have hcnn : 0 ≤ c.amount := hpp.1 g.target c hc
      refine ⟨?_, ?_, hpp.2.2⟩
      · intro k c' hc'
        have hc2 : (e.containers.set g.target (c.put s.volume))[k]? =
          some c' := hc'
        rcases getElem?_set_cases hc2 with rfl | hold
        · show (0 : ℚ) ≤ c.amount + s.volume
          linarith
        · exact hpp.1 k c' hold
      · intro k s' hs'
        have hs2 : (e.grabberStates.set i (⟨0, 0⟩ : GrabberState))[k]? =
          some s' := hs'
        rcases getElem?_set_cases hs2 with rfl | hold
        · exact le_refl 0
        · exact hpp.2.1 k s' hold
    · refine ⟨hpp.1, ?_, hpp.2.2⟩
      intro k s' hs'
      have hs2 : (e.grabberStates.set i
          (⟨s.time - dt, s.volume⟩ : GrabberState))[k]? = some s' := hs'
      rcases getElem?_set_cases hs2 with rfl | hold
      · exact hpp.2.1 i s hs
      · exact hpp.2.1 k s' hold

/-- C5 counterexample: `add_container` validates nothing, so an
environment holding a container with a negative amount is reachable by
the claimed operations; its amount is not `≥ 0`. -/
theorem containers_nonneg_cex :
    Reach ⟨[⟨-1⟩], [], []⟩ ∧
    (⟨[⟨-1⟩], [], []⟩ : Environment).containers[0]? = some ⟨-1⟩ ∧
    ¬ (0 : ℚ) ≤ (-1 : ℚ) := by
  refine ⟨Reach.add_container ⟨-1⟩ Reach.new, rfl, by norm_num⟩

/-- C5 (amended): in every environment reachable by creation, `grab` and
`update` operations in which every added container holds a non-negative
initial amount and every added grabber has a non-negative capacity,
every container amount stays `≥ 0`.  (Creation inputs are not validated
by the code, so negative creation inputs must be excluded.) -/
theorem containers_nonneg_inv (e : Environment) (h : ReachNN e) (i : ℕ)
    (c : Container) (hc : e.containers[i]? = some c) : 0 ≤ c.amount :=
  (reachNN_inv h).1 i c hc

theorem containers_nonneg_inv_w : (0 : ℚ) ≤ (⟨1⟩ : Container).amount :=
  containers_nonneg_inv _
    (ReachNN.add_container ⟨1⟩ (by norm_num) ReachNN.new) 0 ⟨1⟩ rfl

/-- C7 counterexample: `update` with a negative delta moves an idle
grabber (state `⟨0, 0⟩`, so `remaining_time = 0`) into the InTransit
state: after `update (-1)` its state is `⟨1, 0⟩`, with
`remaining_time = 1 > 0`, without any `grab`. -/
theorem idle_to_transit_cex :
    (⟨[⟨0⟩], [⟨1, 1, 0, 0⟩], [⟨0, 0⟩]⟩ : Environment).update (-1) =
      some ⟨[⟨0⟩], [⟨1, 1, 0, 0⟩], [⟨1, 0⟩]⟩ ∧ (0 : ℚ) < 1 := by
  constructor
  · norm_num [Environment.update, Environment.updateOrder,
      Environment.updateStep, List.range_succ]
  · norm_num

/-- C7 (amended): an idle grabber (`remaining_time = 0`) stays idle under
`update` with any non-negative `delta_time`; so with non-negative deltas
the transition Idle to InTransit occurs only via a successful `grab`. -/
theorem idle_stays_idle (e e₁ : Environment) (dt : ℚ) (gid : ℕ)
    (s : GrabberState) (hdt : 0 ≤ dt)
    (hs : e.grabberStates[gid]? = some s) (ht : s.time = 0)
    (h : e.update dt = some e₁) :
    ∃ s₁, e₁.grabberStates[gid]? = some s₁ ∧ s₁.time = 0 := by
  have hc := update_states_get h gid
  by_cases hlt : gid < e.grabbers.length
  · rw [if_pos hlt, hs] at hc
    refine ⟨stepState dt s, hc, ?_⟩
    have hcond : s.time - dt ≤ 0 := by
      rw [ht]
      linarith
    simp [stepState, hcond]
  · rw [if_neg hlt] at hc
    exact ⟨s, by rw [hc, hs], ht⟩

theorem idle_stays_idle_w :
    ∃ s₁, (⟨[⟨0⟩], [⟨1, 1, 0, 0⟩], [⟨0, 0⟩]⟩ :
      Environment).grabberStates[0]? = some s₁ ∧ s₁.time = 0 :=
  idle_stays_idle ⟨[⟨0⟩], [⟨1, 1, 0, 0⟩], [⟨0, 0⟩]⟩
    ⟨[⟨0⟩], [⟨1, 1, 0, 0⟩], [⟨0, 0⟩]⟩ 1 0 ⟨0, 0⟩ (by norm_num) rfl rfl
    (by norm_num [Environment.update, Environment.updateOrder,
      Environment.updateStep, Container.put, List.range_succ])

theorem Container.put_put (c : Container) (v w : ℚ) :
    (c.put v).put w = (c.put w).put v := by
  unfold Container.put
  rw [Container.mk.injEq]
  ring

theorem step_eval_deposit {e : Environment} {dt : ℚ} {i : ℕ}
    {s : GrabberState} {g : Grabber} {c : Container}
    (hs : e.grabberStates[i]? = some s) (hcond : s.time - dt ≤ 0)
    (hg : e.grabbers[i]? = some g)
    (hc : e.containers[g.target]? = some c) :
    e.updateStep dt i =
      some ⟨e.containers.set g.target (c.put s.volume), e.grabbers,
            e.grabberStates.set i ⟨0, 0⟩⟩ := by
  unfold Environment.updateStep
  simp only [hs]
  rw [if_pos hcond]
  simp only [hg, hc]

theorem step_eval_tick {e : Environment} {dt : ℚ} {i : ℕ}
    {s : GrabberState}
    (hs : e.grabberStates[i]? = some s) (hcond : ¬ s.time - dt ≤ 0) :
    e.updateStep dt i =
      some ⟨e.containers, e.grabbers,
            e.grabberStates.set i ⟨s.time - dt, s.volume⟩⟩ := by
  unfold Environment.updateStep
  simp only [hs]
  rw [if_neg hcond]

theorem step_none_stable {e e₁ : Environment} {dt : ℚ} {i j : ℕ}
    (hij : i ≠ j) (h₁ : e.updateStep dt j = some e₁)
    (h : e.updateStep dt i = none) : e₁.updateStep dt i = none := by
  have hsj : e₁.grabberStates[i]? = e.grabberStates[i]? :=
    step_states_other (Ne.symm hij) h₁
  have hgj : e₁.grabbers = e.grabbers := step_grabbers h₁
  unfold Environment.updateStep at h ⊢
  rw [hsj, hgj]
  cases hs : e.grabberStates[i]? with
  | none => rfl
  | some s =>
    simp only [hs] at h ⊢
    by_cases hcond : s.time - dt ≤ 0
    · rw [if_pos hcond] at h ⊢
      cases hg : e.grabbers[i]? with
      | none => rfl
      | some g =>
        simp only [hg] at h ⊢
        cases hc : e.containers[g.target]? with
        | none =>
          have hiso := step_containers_isSome h₁ g.target
          rw [hc] at hiso
          cases hx : e₁.containers[g.target]? with
          | none => rfl
          | some c =>
            rw [hx] at hiso
            exact absurd hiso (by simp)
        | some c =>
          rw [hc] at h
          exact absurd h (by simp)
    · rw [if_neg hcond] at h
      exact absurd h (by simp)

theorem step_comm (e : Environment) (dt : ℚ) {i j : ℕ} (hij : i ≠ j) :
    (e.updateStep dt i).bind (fun x => x.updateStep dt j) =
    (e.updateStep dt j).bind (fun x => x.updateStep dt i) := by
  cases hi : e.updateStep dt i with
  | none =>
    cases hj : e.updateStep dt j with
    | none => rfl
    | some ej =>
      show (none : Option Environment) = ej.updateStep dt i
      exact (step_none_stable hij hj hi).symm
  | some ei =>
    cases hj : e.updateStep dt j with
    | none =>
      show ei.updateStep dt j = (none : Option Environment)
      exact step_none_stable (Ne.symm hij) hi hj
    | some ej =>
      show ei.updateStep dt j = ej.updateStep dt i
      obtain ⟨si, hsi, hi_br⟩ := step_shape hi
      obtain ⟨sj, hsj, hj_br⟩ := step_shape hj
      rcases hi_br with ⟨gi, ci, hcondi, hgi, hci, rfl⟩ | ⟨hcondi, rfl⟩
      · rcases hj_br with ⟨gj, cj, hcondj, hgj, hcj, rfl⟩ | ⟨hcondj, rfl⟩
        · -- both sides deposit
          have h1 : (⟨e.containers.set gi.target (ci.put si.volume),
              e.grabbers, e.grabberStates.set i ⟨0, 0⟩⟩ :
              Environment).grabberStates[j]? = some sj := by
            show (e.grabberStates.set i (⟨0, 0⟩ : GrabberState))[j]? =
              some sj
            rw [List.getElem?_set_ne hij]
            exact hsj
          have h2 : (⟨e.containers.set gj.target (cj.put sj.volume),
              e.grabbers, e.grabberStates.set j ⟨0, 0⟩⟩ :
              Environment).grabberStates[i]? = some si := by
            show (e.grabberStates.set j (⟨0, 0⟩ : GrabberState))[i]? =
              some si
            rw [List.getElem?_set_ne (Ne.symm hij)]
            exact hsi
          by_cases htt : gi.target = gj.target
          · rw [htt] at hci
            rw [hci] at hcj
            obtain rfl : ci = cj := Option.some.inj hcj
            have h3 : (⟨e.containers.set gi.target (ci.put si.volume),
                e.grabbers, e.grabberStates.set i ⟨0, 0⟩⟩ :
                Environment).containers[gj.target]? =
                some (ci.put si.volume) := by
              show (e.containers.set gi.target
                (ci.put si.volume))[gj.target]? = some (ci.put si.volume)
              rw [htt]
              exact List.getElem?_set_self
                (List.getElem?_eq_some_iff.mp hci).1
            have h4 : (⟨e.containers.set gj.target (ci.put sj.volume),
                e.grabbers, e.grabberStates.set j ⟨0, 0⟩⟩ :
                Environment).containers[gi.target]? =
                some (ci.put sj.volume) := by
              show (e.containers.set gj.target
                (ci.put sj.volume))[gi.target]? = some (ci.put sj.volume)
              rw [htt]
              exact List.getElem?_set_self
                (List.getElem?_eq_some_iff.mp hci).1
            rw [step_eval_deposit h1 hcondj hgj h3,
              step_eval_deposit h2 hcondi hgi h4]
            rw [Option.some.injEq, Environment.mk.injEq]
            refine ⟨?_, rfl, List.set_comm _ _ _ hij⟩
            rw [htt, List.set_set, List.set_set, Container.put_put]
          · have h3 : (⟨e.containers.set gi.target (ci.put si.volume),
                e.grabbers, e.grabberStates.set i ⟨0, 0⟩⟩ :
                Environment).containers[gj.target]? = some cj := by
              show (e.containers.set gi.target
                (ci.put si.volume))[gj.target]? = some cj
              rw [List.getElem?_set_ne htt]
              exact hcj
            have h4 : (⟨e.containers.set gj.target (cj.put sj.volume),
                e.grabbers, e.grabberStates.set j ⟨0, 0⟩⟩ :
                Environment).containers[gi.target]? = some ci := by
              show (e.containers.set gj.target
                (cj.put sj.volume))[gi.target]? = some ci
              rw [List.getElem?_set_ne (Ne.symm htt)]
              exact hci
            rw [step_eval_deposit h1 hcondj hgj h3,
              step_eval_deposit h2 hcondi hgi h4]
            rw [Option.some.injEq, Environment.mk.injEq]
            exact ⟨List.set_comm _ _ _ htt, rfl,
              List.set_comm _ _ _ hij⟩
        · -- i deposits, j ticks
          have h1 : (⟨e.containers.set gi.target (ci.put si.volume),
              e.grabbers, e.grabberStates.set i ⟨0, 0⟩⟩ :
              Environment).grabberStates[j]? = some sj := by
            show (e.grabberStates.set i (⟨0, 0⟩ : GrabberState))[j]? =
              some sj
            rw [List.getElem?_set_ne hij]
            exact hsj
          have h2 : (⟨e.containers, e.grabbers, e.grabberStates.set j
              ⟨sj.time - dt, sj.volume⟩⟩ :
              Environment).grabberStates[i]? = some si := by
            show (e.grabberStates.set j
              (⟨sj.time - dt, sj.volume⟩ : GrabberState))[i]? = some si
            rw [List.getElem?_set_ne (Ne.symm hij)]
            exact hsi
          have h4 : (⟨e.containers, e.grabbers, e.grabberStates.set j
              ⟨sj.time - dt, sj.volume⟩⟩ :
              Environment).containers[gi.target]? = some ci := hci
          rw [step_eval_tick h1 hcondj, step_eval_deposit h2 hcondi hgi h4]
          rw [Option.some.injEq, Environment.mk.injEq]
          exact ⟨rfl, rfl, List.set_comm _ _ _ hij⟩
      · rcases hj_br with ⟨gj, cj, hcondj, hgj, hcj, rfl⟩ | ⟨hcondj, rfl⟩
        · -- i ticks, j deposits
          have h1 : (⟨e.containers, e.grabbers, e.grabberStates.set i
              ⟨si.time - dt, si.volume⟩⟩ :
              Environment).grabberStates[j]? = some sj := by
            show (e.grabberStates.set i
              (⟨si.time - dt, si.volume⟩ : GrabberState))[j]? = some sj
            rw [List.getElem?_set_ne hij]
            exact hsj
          have h2 : (⟨e.containers.set gj.target (cj.put sj.volume),
              e.grabbers, e.grabberStates.set j ⟨0, 0⟩⟩ :
              Environment).grabberStates[i]? = some si := by
            show (e.grabberStates.set j (⟨0, 0⟩ : GrabberState))[i]? =
              some si
            rw [List.getElem?_set_ne (Ne.symm hij)]
            exact hsi
          have h3 : (⟨e.containers, e.grabbers, e.grabberStates.set i
              ⟨si.time - dt, si.volume⟩⟩ :
              Environment).containers[gj.target]? = some cj := hcj
          rw [step_eval_deposit h1 hcondj hgj h3, step_eval_tick h2 hcondi]
          rw [Option.some.injEq, Environment.mk.injEq]
          exact ⟨rfl, rfl, List.set_comm _ _ _ hij⟩
        · -- both tick
          have h1 : (⟨e.containers, e.grabbers, e.grabberStates.set i
              ⟨si.time - dt, si.volume⟩⟩ :
              Environment).grabberStates[j]? = some sj := by
            show (e.grabberStates.set i
              (⟨si.time - dt, si.volume⟩ : GrabberState))[j]? = some sj
            rw [List.getElem?_set_ne hij]
            exact hsj
          have h2 : (⟨e.containers, e.grabbers, e.grabberStates.set j
              ⟨sj.time - dt, sj.volume⟩⟩ :
              Environment).grabberStates[i]? = some si := by
            show (e.grabberStates.set j
              (⟨sj.time - dt, sj.volume⟩ : GrabberState))[i]? = some si
            rw [List.getElem?_set_ne (Ne.symm hij)]
            exact hsi
          rw [step_eval_tick h1 hcondj, step_eval_tick h2 hcondi]
          rw [Option.some.injEq, Environment.mk.injEq]
          exact ⟨rfl, rfl, List.set_comm _ _ _ hij⟩

theorem foldl_bind_none (dt : ℚ) : ∀ (l : List ℕ),
    l.foldl (fun (acc : Option Environment) (x : ℕ) =>
      acc.bind (fun e₁ => e₁.updateStep dt x)) none = none
  | [] => rfl
  | x :: l => by
    rw [List.foldl_cons]
    exact foldl_bind_none dt l

theorem updateOrder_eq_foldl (dt : ℚ) :
    ∀ (l : List ℕ) (e : Environment),
      e.updateOrder dt l =
        l.foldl (fun acc x => acc.bind (fun e₁ => e₁.updateStep dt x))
          (some e)
  | [], _ => rfl
  | x :: l, e => by
    rw [List.foldl_cons, updateOrder_cons]
    cases hstep : e.updateStep dt x with
    | none =>
      show (none : Option Environment) = _
      have hb : (some e).bind (fun e₁ => e₁.updateStep dt x) = none := by
        show e.updateStep dt x = none
        exact hstep
      rw [hb]
      exact (foldl_bind_none dt l).symm
    | some e₂ =>
      show e₂.updateOrder dt l = _
      have hb : (some e).bind (fun e₁ => e₁.updateStep dt x) = some e₂ := by
        show e.updateStep dt x = some e₂
        exact hstep
      rw [hb]
      exact updateOrder_eq_foldl dt l e₂

/-- C8: `update` processes each grabber independently: running the loop
body over any permutation of the grabber indices `0..n` produces the same
resulting environment as `update` itself, including when grabbers share a
target container. -/
theorem update_perm (e : Environment) (dt : ℚ) (l : List ℕ)
    (h : l.Perm (List.range e.grabbers.length)) :
    e.updateOrder dt l = e.update dt := by
  unfold Environment.update
  rw [updateOrder_eq_foldl, updateOrder_eq_foldl]
  refine h.foldl_eq' ?_ (some e)
  intro x _ y _ z
  cases z with
  | none => rfl
  | some ez =>
    show (ez.updateStep dt x).bind (fun w => w.updateStep dt y) =
      (ez.updateStep dt y).bind (fun w => w.updateStep dt x)
    by_cases hxy : x = y
    · subst hxy
      rfl
    · exact step_comm ez dt hxy

theorem update_perm_w :
    (⟨[⟨0⟩], [⟨1, 1, 0, 0⟩, ⟨2, 1, 0, 0⟩], [⟨1, 1⟩, ⟨1, 2⟩]⟩ :
      Environment).updateOrder 1 [1, 0] =
    (⟨[⟨0⟩], [⟨1, 1, 0, 0⟩, ⟨2, 1, 0, 0⟩], [⟨1, 1⟩, ⟨1, 2⟩]⟩ :
      Environment).update 1 :=
  update_perm _ 1 [1, 0] (by
    have hr : List.range 2 = [0, 1] := by norm_num [List.range_succ]
    rw [show (⟨[⟨0⟩], [⟨1, 1, 0, 0⟩, ⟨2, 1, 0, 0⟩],
      [⟨1, 1⟩, ⟨1, 2⟩]⟩ : Environment).grabbers.length = 2 from rfl, hr]
    exact List.Perm.swap 0 1 [])

/-- C1 counterexample: the claim fails when a grabber's source and target
are the same container (allowed by the model).  Container 0 holds 1, the
grabber has capacity 1 ≥ 1 and duration 1, source = target = 0.  After a
successful `grab` and `update 1` (cumulative delta 1 ≥ duration 1) the
withdrawn volume is deposited back, so the source container holds 1, not
0: its amount did not decrease by the pre-activation amount. -/
theorem conservation_same_container_cex :
    (⟨[⟨1⟩], [⟨1, 1, 0, 0⟩], [⟨0, 0⟩]⟩ : Environment).grab 0 =
      some (⟨[⟨0⟩], [⟨1, 1, 0, 0⟩], [⟨1, 1⟩]⟩, GrabOutcome.ok) ∧
    (⟨[⟨0⟩], [⟨1, 1, 0, 0⟩], [⟨1, 1⟩]⟩ : Environment).updates [1] =
      some ⟨[⟨1⟩], [⟨1, 1, 0, 0⟩], [⟨0, 0⟩]⟩ ∧
    ¬ (⟨[⟨1⟩], [⟨1, 1, 0, 0⟩], [⟨0, 0⟩]⟩ :
        Environment).containers[0]? = some ⟨0⟩ := by
  refine ⟨?_, ?_, ?_⟩
  · norm_num [Environment.grab, Container.take]
  · norm_num [Environment.updates, Environment.update,
      Environment.updateOrder, Environment.updateStep, Container.put,
      List.range_succ]
  · norm_num

/-- C1 (amended): for a grabber whose source and target containers are
distinct, whose duration is positive, and whose capacity is at least the
source amount `a ≥ 0`, with every other grabber carrying no in-transit
volume: after a successful `grab` followed by `update` calls whose
cumulative delta is at least the duration, the source container is at 0
(decreased by exactly `a`) and the target container increased by exactly
`a`. -/
theorem grab_update_conservation (e e₁ e₂ : Environment)
    (gid : ℕ) (g : Grabber) (a b : ℚ) (ds : List ℚ)
    (hg : e.grabbers[gid]? = some g)
    (hst : g.source ≠ g.target)
    (hsrc : e.containers[g.source]? = some ⟨a⟩)
    (htgt : e.containers[g.target]? = some ⟨b⟩)
    (hcap : a ≤ g.volume)
    (ha : 0 ≤ a) (hb : 0 ≤ b)
    (hdur : 0 < g.time)
    (hvol : othersIdle e gid)
    (hgrab : e.grab gid = some (e₁, GrabOutcome.ok))
    (hsum : g.time ≤ ds.sum)
    (hupd : e₁.updates ds = some e₂) :
    e₂.containers[g.source]? = some ⟨0⟩ ∧
    e₂.containers[g.target]? = some ⟨b + a⟩ := by
  obtain ⟨s, g', c, hs, ht, hg', hc, rfl⟩ := grab_ok_shape hgrab
  rw [hg] at hg'
  obtain rfl : g = g' := Option.some.inj hg'
  rw [hsrc] at hc
  obtain rfl : (⟨a⟩ : Container) = c := Option.some.inj hc
  have hcap' : (⟨a⟩ : Container).amount ≤ g.volume := hcap
  have htake : Container.take ⟨a⟩ g.volume = (⟨0⟩, a) := by
    unfold Container.take
    rw [if_pos hcap']
  have hlt_s : gid < e.grabberStates.length :=
    (List.getElem?_eq_some_iff.mp hs).1
  have hlt_c : g.source < e.containers.length :=
    (List.getElem?_eq_some_iff.mp hsrc).1
  refine @updates_deposit gid g ds _ e₂ g.time a b ?_ hst ?_ ?_ ?_ ?_
    hdur hsum hupd
  · exact hg
  · intro j s' hj hs'
    have hs2 : (e.grabberStates.set gid
        ⟨g.time, (Container.take ⟨a⟩ g.volume).2⟩)[j]? = some s' := hs'
    rw [List.getElem?_set_ne (fun hh => hj hh.symm)] at hs2
    exact hvol j s' hj hs2
  · show (e.grabberStates.set gid
      ⟨g.time, (Container.take ⟨a⟩ g.volume).2⟩)[gid]? = some ⟨g.time, a⟩
    rw [htake, List.getElem?_set_self hlt_s]
  · show (e.containers.set g.source
      (Container.take ⟨a⟩ g.volume).1)[g.source]? = some ⟨0⟩
    rw [htake, List.getElem?_set_self hlt_c]
  · show (e.containers.set g.source
      (Container.take ⟨a⟩ g.volume).1)[g.target]? = some ⟨b⟩
    rw [List.getElem?_set_ne hst]
    exact htgt

theorem grab_update_conservation_w :
    (⟨[⟨0⟩, ⟨2⟩], [⟨3, 1, 0, 1⟩], [⟨0, 0⟩]⟩ :
      Environment).containers[0]? = some ⟨0⟩ ∧
    (⟨[⟨0⟩, ⟨2⟩], [⟨3, 1, 0, 1⟩], [⟨0, 0⟩]⟩ :
      Environment).containers[1]? = some ⟨0 + 2⟩ :=
  grab_update_conservation ⟨[⟨2⟩, ⟨0⟩], [⟨3, 1, 0, 1⟩], [⟨0, 0⟩]⟩
    ⟨[⟨0⟩, ⟨0⟩], [⟨3, 1, 0, 1⟩], [⟨1, 2⟩]⟩
    ⟨[⟨0⟩, ⟨2⟩], [⟨3, 1, 0, 1⟩], [⟨0, 0⟩]⟩ 0 ⟨3, 1, 0, 1⟩ 2 0 [1]
    rfl (by norm_num) rfl rfl (by norm_num) (by norm_num) (by norm_num)
    (by norm_num)
    (by
      intro j s hj hs
      cases j with
      | zero => exact absurd rfl hj
      | succ n => exact absurd hs (by simp))
    (by norm_num [Environment.grab, Container.take])
    (by norm_num)
    (by norm_num [Environment.updates, Environment.update,
      Environment.updateOrder, Environment.updateStep, Container.put,
      List.range_succ])

/-- C6 counterexample: with a negative delta in the sequence the claim
fails.  Grabber: capacity 1, duration 1, container 0 → container 1;
source holds 1.  After `grab`, the updates `[2, -5]` have cumulative
delta −3 < 1 = duration, yet the first update already deposits (2 ≥ 1),
so the target container changed from 0 to 1. -/
theorem no_early_deposit_cex :
    (⟨[⟨1⟩, ⟨0⟩], [⟨1, 1, 0, 1⟩], [⟨0, 0⟩]⟩ : Environment).grab 0 =
      some (⟨[⟨0⟩, ⟨0⟩], [⟨1, 1, 0, 1⟩], [⟨1, 1⟩]⟩, GrabOutcome.ok) ∧
    (⟨[⟨0⟩, ⟨0⟩], [⟨1, 1, 0, 1⟩], [⟨1, 1⟩]⟩ : Environment).updates
      [2, -5] = some ⟨[⟨0⟩, ⟨1⟩], [⟨1, 1, 0, 1⟩], [⟨5, 0⟩]⟩ ∧
    List.sum [(2 : ℚ), -5] < 1 ∧
    ¬ (⟨[⟨0⟩, ⟨1⟩], [⟨1, 1, 0, 1⟩], [⟨5, 0⟩]⟩ :
        Environment).containers[1]? =
      (⟨[⟨0⟩, ⟨0⟩], [⟨1, 1, 0, 1⟩], [⟨1, 1⟩]⟩ :
        Environment).containers[1]? := by
  refine ⟨?_, ?_, ?_, ?_⟩
  · norm_num [Environment.grab, Container.take]
  · norm_num [Environment.updates, Environment.update,
      Environment.updateOrder, Environment.updateStep, Container.put,
      List.range_succ]
  · norm_num
  · norm_num

/-- C6 (amended): after a successful `grab` of grabber `gid`, when every
other grabber carries no in-transit volume, any sequence of `update`
calls with non-negative deltas whose cumulative sum is strictly less
than the grabber's duration leaves every container (in particular the
target) unchanged, and leaves the grabber InTransit
(`remaining_time = duration - sum > 0`) with its cargo untouched. -/
theorem no_early_deposit (e e₁ e₂ : Environment)
    (gid : ℕ) (g : Grabber) (ds : List ℚ)
    (hg : e.grabbers[gid]? = some g)
    (hvol : othersIdle e gid)
    (hgrab : e.grab gid = some (e₁, GrabOutcome.ok))
    (hnn : ∀ d, d ∈ ds → 0 ≤ d)
    (hsum : ds.sum < g.time)
    (hupd : e₁.updates ds = some e₂) :
    (∀ (k : ℕ), e₂.containers[k]? = e₁.containers[k]?) ∧
    ∃ w, e₁.grabberStates[gid]? = some ⟨g.time, w⟩ ∧
      e₂.grabberStates[gid]? = some ⟨g.time - ds.sum, w⟩ ∧
      0 < g.time - ds.sum := by
  obtain ⟨s, g', c, hs, ht, hg', hc, rfl⟩ := grab_ok_shape hgrab
  rw [hg] at hg'
  obtain rfl : g = g' := Option.some.inj hg'
  have hlt_s : gid < e.grabberStates.length :=
    (List.getElem?_eq_some_iff.mp hs).1
  have hs₁ : (e.grabberStates.set gid
      ⟨g.time, (c.take g.volume).2⟩)[gid]? =
      some ⟨g.time, (c.take g.volume).2⟩ :=
    List.getElem?_set_self hlt_s
  have hvol₁ : othersIdle
      ⟨e.containers.set g.source (c.take g.volume).1, e.grabbers,
       e.grabberStates.set gid ⟨g.time, (c.take g.volume).2⟩⟩ gid := by
    intro j s' hj hs'
    have hs2 : (e.grabberStates.set gid
        ⟨g.time, (c.take g.volume).2⟩)[j]? = some s' := hs'
    rw [List.getElem?_set_ne (fun hh => hj hh.symm)] at hs2
    exact hvol j s' hj hs2
  have hg₁ : (⟨e.containers.set g.source (c.take g.volume).1, e.grabbers,
      e.grabberStates.set gid ⟨g.time, (c.take g.volume).2⟩⟩ :
      Environment).grabbers[gid]? = some g := hg
  obtain ⟨hC, hS⟩ := @updates_no_deposit gid g ds _ e₂ g.time
    ((c.take g.volume).2) hg₁ hvol₁ hs₁ hnn hsum hupd
  refine ⟨hC, (c.take g.volume).2, hs₁, hS, ?_⟩
  linarith

theorem no_early_deposit_w :
    (∀ (k : ℕ),
      (⟨[⟨8⟩, ⟨0⟩], [⟨2, 1, 0, 1⟩], [⟨1 - 1 / 2, 2⟩]⟩ :
        Environment).containers[k]? =
      (⟨[⟨8⟩, ⟨0⟩], [⟨2, 1, 0, 1⟩], [⟨1, 2⟩]⟩ :
        Environment).containers[k]?) ∧
    ∃ w, (⟨[⟨8⟩, ⟨0⟩], [⟨2, 1, 0, 1⟩], [⟨1, 2⟩]⟩ :
        Environment).grabberStates[0]? = some ⟨(1 : ℚ), w⟩ ∧
      (⟨[⟨8⟩, ⟨0⟩], [⟨2, 1, 0, 1⟩], [⟨1 - 1 / 2, 2⟩]⟩ :
        Environment).grabberStates[0]? =
        some ⟨(1 : ℚ) - List.sum [1 / 2], w⟩ ∧
      (0 : ℚ) < 1 - List.sum [1 / 2] :=
  no_early_deposit envA ⟨[⟨8⟩, ⟨0⟩], [⟨2, 1, 0, 1⟩], [⟨1, 2⟩]⟩
    ⟨[⟨8⟩, ⟨0⟩], [⟨2, 1, 0, 1⟩], [⟨1 - 1 / 2, 2⟩]⟩
    0 ⟨2, 1, 0, 1⟩ [1 / 2] rfl
    (by
      intro j s hj hs
      cases j with
      | zero => exact absurd rfl hj
      | succ n => exact absurd hs (by simp [envA]))
    (by norm_num [envA, Environment.grab, Container.take])
    (by
      intro d hd
      rw [List.mem_singleton.mp hd]
      norm_num)
    (by norm_num)
    (by norm_num [Environment.updates, Environment.update,
      Environment.updateOrder, Environment.updateStep, Container.take,
      List.range_succ])

end Dig
